import Mathlib

/-!
# Verification of the NexLang front end and evaluator

This development is a shallow embedding, in Lean 4, of the NexLang
tree-walking interpreter: the dynamic value model (`runtime/value.h`), the
scoped symbol table (`symbol/symbol_table.h`), the lexer (`lexer/lexer.cpp`)
and the block engine (`engine/block_engine.h`), together with theorems about
the embedded definitions.

Modelling conventions:
* C++ `double` is modelled as the exact rationals `ℚ`.  Every claim settled
  here is insensitive to binary rounding (the epsilon `1e-10` and all concrete
  inputs are exactly representable in decimal, and no claim depends on
  accumulated rounding), so exact rational arithmetic is a faithful model.
* `std::stod` is modelled by a decimal parser (`strToFloat`): optional
  whitespace and sign, digits with an optional fractional part and an optional
  exponent; parse failure is `none` (the C++ code catches the exception and
  substitutes `0.0`).  Hexadecimal/infinity/NaN forms of `strtod` are outside
  the model; no claim touches them.
* Throwing C++ code (`Value::operator/`) is embedded with `Except`.
* `std::cout` output is modelled as an accumulating list of lines.
* Mutation through `shared_ptr` is modelled by explicit state passing: each
  operation returns the updated symbol table.
-/

namespace NexLang

/-- The `ValueType` enum of `runtime/value.h`. -/
inductive ValueType
  | STRING
  | FLOAT
  | BOOL
  | HANDLE
deriving DecidableEq, Repr

/-- The tagged runtime value of `runtime/value.h`.  A `Handle` carries a
resource kind string, a pointer (only its non-nullness is observable, so it is
modelled as a `Bool`) and a numeric id. -/
inductive Value
  | str (s : String)
  | float (f : ℚ)
  | bool (b : Bool)
  | handle (kind : String) (ptrNonNull : Bool) (id : ℤ)
deriving DecidableEq, Repr

/-- `Value::getType`: the tag of a value. -/
def Value.getType : Value → ValueType
  | .str _ => .STRING
  | .float _ => .FLOAT
  | .bool _ => .BOOL
  | .handle _ _ _ => .HANDLE

/-- Digit run to natural number, most significant first. -/
def digitsToNat (ds : List Char) : ℕ :=
  ds.foldl (fun n c => 10 * n + (c.toNat - ('0').toNat)) 0

/-- The whitespace class of C `isspace` (C locale). -/
def isSpaceChar (c : Char) : Bool :=
  c = ' ' || c = '\t' || c = '\n' || c = '\x0b' || c = '\x0c' || c = '\r'

/-- Exponent part of the `std::stod` model: optional sign then digits; an
exponent with no digits contributes `0` (`strtod` rejects the partial
exponent and keeps the mantissa). -/
def parseExponent (cs : List Char) : ℤ :=
  let (sgn, cs1) : ℤ × List Char :=
    match cs with
    | '-' :: t => (-1, t)
    | '+' :: t => (1, t)
    | _ => (1, cs)
  let ds := cs1.takeWhile Char.isDigit
  if ds.isEmpty then 0 else sgn * (digitsToNat ds : ℤ)

/-- Model of `std::stod` on decimal input: `none` when no digits can be
consumed (the conversion throws in C++), otherwise the exactly parsed
rational.  Trailing garbage is ignored, as `stod` ignores it. -/
def strToFloat (s : String) : Option ℚ :=
  let cs := s.toList.dropWhile isSpaceChar
  let (sgn, cs1) : ℚ × List Char :=
    match cs with
    | '-' :: t => (-1, t)
    | '+' :: t => (1, t)
    | _ => (1, cs)
  let intPart := cs1.takeWhile Char.isDigit
  let rest1 := cs1.dropWhile Char.isDigit
  let (fracPart, rest2) : List Char × List Char :=
    match rest1 with
    | '.' :: t => (t.takeWhile Char.isDigit, t.dropWhile Char.isDigit)
    | _ => ([], rest1)
  if intPart.isEmpty && fracPart.isEmpty then none
  else
    let mant : ℚ := (digitsToNat intPart : ℚ) +
      (digitsToNat fracPart : ℚ) / 10 ^ fracPart.length
    let e : ℤ :=
      match rest2 with
      | c :: t => if c = 'e' || c = 'E' then parseExponent t else 0
      | [] => 0
    some (sgn * mant * 10 ^ e)

/-- Floor of a nonnegative rational, computed on the raw representation. -/
def ratFloorNonneg (q : ℚ) : ℕ :=
  q.num.toNat / q.den

/-- Fixed six-decimal rendering of a rational, the model of
`std::to_string(double)` (`%f` with six digits after the point; decimal ties
are rounded up in the model — no claim sits on a tie). -/
def fmtFixed6 (q : ℚ) : String :=
  let scaled : ℕ := ratFloorNonneg (|q| * 1000000 + 1 / 2)
  let ip := scaled / 1000000
  let fp := scaled % 1000000
  let fpStr := Nat.repr fp
  let pad := String.mk (List.replicate (6 - fpStr.length) '0')
  (if q < 0 then "-" else "") ++ Nat.repr ip ++ "." ++ pad ++ fpStr

/-- `Value::toString`: total string conversion. -/
def Value.toString : Value → String
  | .str s => s
  | .float f => fmtFixed6 f
  | .bool b => if b then "true" else "false"
  | .handle kind _ id => "<handle:" ++ kind ++ ":" ++ Int.repr id ++ ">"

/-- `Value::toFloat`: total float conversion; a string that fails numeric
parse converts to `0.0` (the `catch (...)` branch). -/
def Value.toFloat : Value → ℚ
  | .str s =>
    match strToFloat s with
    | some q => q
    | none => 0
  | .float f => f
  | .bool b => if b then 1 else 0
  | .handle _ _ id => (id : ℚ)

/-- The epsilon `1e-10` used by `Value::toBool`, `Value::operator/` and the
comparison operators. -/
def epsilon : ℚ := 1 / 10 ^ 10

/-- `Value::toBool`: total bool conversion; a float is true exactly when its
magnitude exceeds `1e-10`. -/
def Value.toBool : Value → Bool
  | .str s => !s.isEmpty
  | .float f => decide (|f| > epsilon)
  | .bool b => b
  | .handle _ ptrNonNull _ => ptrNonNull

/-- `Value::operator+`: string concatenation when either operand is a string,
otherwise float addition. -/
def Value.add (a b : Value) : Value :=
  if a.getType = ValueType.STRING ∨ b.getType = ValueType.STRING then
    .str (a.toString ++ b.toString)
  else
    .float (a.toFloat + b.toFloat)

/-- `Value::operator/`: throws "Division by zero" when the divisor's float
magnitude is below `1e-10`, otherwise float division. -/
def Value.div (a b : Value) : Except String Value :=
  let divisor := b.toFloat
  if |divisor| < epsilon then
    .error "Division by zero"
  else
    .ok (.float (a.toFloat / divisor))

/-- The `Divide` builtin of `BuiltinsRegistry::initializeBuiltins`: divides
the first two arguments, returning `0.0` when fewer than two are given. -/
def Divide (args : List Value) : Except String Value :=
  match args with
  | a :: b :: _ => Value.div a b
  | _ => .ok (.float 0)

/-- The symbol kinds of `symbol/symbol_table.h`, with the per-kind payload of
the corresponding `Symbol` subclass (`VariableSymbol`, `FunctionSymbol`,
`OperationSymbol`, `BlockSymbol`, `BuiltInSymbol`).  The base-class `value`
field is only ever set by the `VariableSymbol` constructor; all other
subclasses leave it at the default empty string. -/
inductive Symbol
  | variableSym (name : String) (value : Value) (isMutable : Bool)
  | functionSym (name : String) (paramNames : List String)
  | operationSym (name : String) (paramNames : List String)
  | blockSym (name : String) (blockId : ℤ)
  | builtinSym (name : String) (implementation : String)
deriving DecidableEq, Repr

/-- The base-class `value` field: set by the `VariableSymbol` constructor,
default (empty string) for every other subclass. -/
def Symbol.value : Symbol → Value
  | .variableSym _ v _ => v
  | _ => Value.str ""

/-- The `type` discriminator test `sym->type == SymbolType::VARIABLE`. -/
def Symbol.isVariable : Symbol → Bool
  | .variableSym _ _ _ => true
  | _ => false

/-- One lexical scope: the `symbols` name-to-symbol map of `Scope`
(`std::unordered_map`, modelled as an association list with replace-on-insert
so that every name has at most one binding). -/
structure Scope where
  symbols : List (String × Symbol)
deriving DecidableEq, Repr

/-- Map lookup in one scope (`Scope::lookup`, the local step). -/
def mapLookup (m : List (String × Symbol)) (name : String) : Option Symbol :=
  (m.find? (fun p => p.1 = name)).map (fun p => p.2)

/-- Map insert with replacement (`symbols[name] = symbol`). -/
def mapInsert (m : List (String × Symbol)) (name : String) (sym : Symbol) :
    List (String × Symbol) :=
  (name, sym) :: m.filter (fun p => p.1 ≠ name)

/-- The scope chain of `SymbolTable`: innermost scope first, global scope
last (the C++ code links scopes by `parent` pointers; the chain is the same
data).  A freshly constructed table has exactly the global scope. -/
structure SymbolTable where
  scopes : List Scope
deriving DecidableEq, Repr

/-- `SymbolTable::initializeBuiltIns`: the five builtin bindings seeded into
the global scope at construction. -/
def initialGlobalScope : Scope :=
  ⟨mapInsert (mapInsert (mapInsert (mapInsert (mapInsert []
    "Say" (.builtinSym "Say" "print"))
    "open" (.builtinSym "open" "file_open"))
    "Read" (.builtinSym "Read" "file_read"))
    "Write" (.builtinSym "Write" "file_write"))
    "DO" (.builtinSym "DO" "execute")⟩

/-- A fresh `SymbolTable`: one global scope holding the builtins. -/
def SymbolTable.new : SymbolTable :=
  ⟨[initialGlobalScope]⟩

/-- `SymbolTable::enterScope`: push a child scope. -/
def SymbolTable.enterScope (t : SymbolTable) : SymbolTable :=
  ⟨⟨[]⟩ :: t.scopes⟩

/-- `SymbolTable::exitScope`: pop to the parent; no-op at the root. -/
def SymbolTable.exitScope (t : SymbolTable) : SymbolTable :=
  match t.scopes with
  | _sc :: rest :: more => ⟨rest :: more⟩
  | other => ⟨other⟩

/-- `SymbolTable::define`: install into the current (innermost) scope. -/
def SymbolTable.define (t : SymbolTable) (name : String) (sym : Symbol) :
    SymbolTable :=
  match t.scopes with
  | [] => ⟨[⟨mapInsert [] name sym⟩]⟩
  | sc :: rest => ⟨⟨mapInsert sc.symbols name sym⟩ :: rest⟩

/-- `SymbolTable::defineVariable`. -/
def SymbolTable.defineVariable (t : SymbolTable) (name : String) (v : Value)
    (isMutable : Bool := true) : SymbolTable :=
  t.define name (.variableSym name v isMutable)

/-- `Scope::lookup` chained through parents (`SymbolTable::lookup`): the
nearest enclosing binding wins. -/
def tableLookupAux (scopes : List Scope) (name : String) : Option Symbol :=
  match scopes with
  | [] => none
  | sc :: rest =>
    match mapLookup sc.symbols name with
    | some sym => some sym
    | none => tableLookupAux rest name

/-- `SymbolTable::lookup`. -/
def SymbolTable.lookup (t : SymbolTable) (name : String) : Option Symbol :=
  tableLookupAux t.scopes name

/-- Update step of `SymbolTable::updateVariable`: walk outward to the first
scope that binds `name` (exactly the scope whose symbol `lookup` returns);
there, succeed and rebind in place only for a mutable variable symbol.
`none` means the update was refused, leaving the whole chain untouched. -/
def updateScopes (scopes : List Scope) (name : String) (newValue : Value) :
    Option (List Scope) :=
  match scopes with
  | [] => none
  | sc :: rest =>
    match mapLookup sc.symbols name with
    | some sym =>
      match sym with
      | .variableSym n _ isMutable =>
        if isMutable then
          some (⟨mapInsert sc.symbols name (.variableSym n newValue isMutable)⟩ :: rest)
        else none
      | _ => none
    | none => (updateScopes rest name newValue).map (fun r => sc :: r)

/-- `SymbolTable::updateVariable`: returns the C++ `bool` result paired with
the table after the call (unchanged when the result is `false`). -/
def SymbolTable.updateVariable (t : SymbolTable) (name : String)
    (newValue : Value) : Bool × SymbolTable :=
  match updateScopes t.scopes name newValue with
  | some scopes => (true, ⟨scopes⟩)
  | none => (false, t)

/-- Test used by the hypotheses about name resolution: does this single scope
bind `name` to a variable-kind symbol? -/
def scopeBindsVariable (sc : Scope) (name : String) : Bool :=
  match mapLookup sc.symbols name with
  | some sym => sym.isVariable
  | none => false

/-- Demonstration table: one scope binding `k` to an immutable variable. -/
def immutableDemoTable : SymbolTable :=
  ⟨[⟨[("k", .variableSym "k" (.float 1) false)]⟩]⟩

/-- Demonstration table: one scope binding `k` to a mutable variable. -/
def mutableDemoTable : SymbolTable :=
  ⟨[⟨[("k", .variableSym "k" (.float 1) true)]⟩]⟩

/-- Demonstration table: an inner scope binding `f` to an operation symbol,
over the builtin-seeded global scope; no variable binding anywhere. -/
def noVariableDemoTable : SymbolTable :=
  ⟨[⟨[("f", .operationSym "f" ["x"])]⟩, initialGlobalScope]⟩

/-- The `TokenType` enum of `lexer/lexer.h`. -/
inductive TokenType
  | EndOfFile
  | Unknown
  | Identifier
  | Keyword
  | Number
  | String
  | Symbol
  | Operator
  | Comment
deriving DecidableEq, Repr

/-- The `Token` record of `lexer/lexer.h`. -/
structure Token where
  type : TokenType
  lexeme : String
  line : ℕ
  column : ℕ
deriving DecidableEq, Repr

/-- Observable kind and lexeme of a token. -/
def tokenKindLex (t : Token) : TokenType × String :=
  (t.type, t.lexeme)

/-- The `kKeywords` set of `lexer/lexer.cpp`. -/
def kKeywords : List String :=
  ["#START_BLOCK", "#END_BLOCK", "#EXECUTE_BLOCK",
   "DATA", "OPERATION", "FUNCTION", "SYSTEM_CALL",
   "Let", "NOW", "DO", "Until", "Run", "If", "Else", "While",
   "Say", "open", "Read", "Write", "in_file", "at_Location",
   "Create_operation", "create_function"]

/-- The `kOperators` list of `lexer/lexer.cpp`, in matching order (longest
prefixes first). -/
def kOperators : List (List Char) :=
  [['=', '>'], ['=', '='], ['+', '+'], ['-', '-'],
   ['='], ['+'], ['-'], ['*'], ['/'], ['%']]

/-- The `kSymbols` set of `lexer/lexer.cpp`. -/
def kSymbolChars : List Char :=
  ['(', ')', '\x7b', '\x7d', '[', ']', ';', ',', '*', '@', '.', '/']

/-- The lexer state: remaining input plus the `line_`/`col_` counters (the
C++ code keeps an index into a fixed string; the remaining suffix carries the
same information). -/
structure LexState where
  src : List Char
  line : ℕ
  col : ℕ
deriving DecidableEq, Repr

/-- `Lexer::advance`'s position bookkeeping for one consumed character. -/
def advancePos (c : Char) (line col : ℕ) : ℕ × ℕ :=
  if c = '\n' then (line + 1, 1) else (line, col + 1)

/-- `Lexer::skipWhitespace`. -/
def skipWsAux : List Char → ℕ → ℕ → List Char × ℕ × ℕ
  | [], l, c => ([], l, c)
  | ch :: rest, l, c =>
    if isSpaceChar ch then
      let (l1, c1) := advancePos ch l c
      skipWsAux rest l1 c1
    else (ch :: rest, l, c)

/-- `Lexer::skipWhitespace` on a state. -/
def skipWs (st : LexState) : LexState :=
  let (r, l, c) := skipWsAux st.src st.line st.col
  ⟨r, l, c⟩

/-- Greedy scan of a character class (the loops of `scanNumber`,
`scanIdentifierOrKeyword` and `scanComment`): returns the consumed lexeme,
the remaining input, and the updated position. -/
def consumeWhile (p : Char → Bool) : List Char → ℕ → ℕ →
    List Char × List Char × ℕ × ℕ
  | [], l, c => ([], [], l, c)
  | ch :: rest, l, c =>
    if p ch then
      let (l1, c1) := advancePos ch l c
      let (lex, r, l2, c2) := consumeWhile p rest l1 c1
      (ch :: lex, r, l2, c2)
    else ([], ch :: rest, l, c)

/-- Body loop of `Lexer::scanString`, entered after the opening quote is
consumed: returns whether a closing quote was found, the collected lexeme
(the partial text when unterminated), the remaining input and the updated
position.  A newline terminates the scan (and is consumed) without closing
the string; so does end of input. -/
def scanStringAux : List Char → ℕ → ℕ →
    Bool × List Char × List Char × ℕ × ℕ
  | [], l, c => (false, [], [], l, c)
  | ch :: rest, l, c =>
    let (l1, c1) := advancePos ch l c
    if ch = '"' then (true, [], rest, l1, c1)
    else if ch = '\n' then (false, [], rest, l1, c1)
    else
      let (closed, lex, r, l2, c2) := scanStringAux rest l1 c1
      (closed, ch :: lex, r, l2, c2)

/-- `Lexer::matchOperator`: first operator of the list that is a prefix of
the input, with the input after it. -/
def matchOperatorAux : List (List Char) → List Char →
    Option (List Char × List Char)
  | [], _ => none
  | op :: ops, cs =>
    if op.isPrefixOf cs then some (op, cs.drop op.length)
    else matchOperatorAux ops cs

/-- Identifier/keyword continuation characters (`isalnum`, `_`, `#`). -/
def isIdentChar (c : Char) : Bool :=
  c.isAlphanum || c = '_' || c = '#'

/-- One dispatch step of `Lexer::tokenize` on non-empty input that already
had leading whitespace skipped: produces the next token and the state after
it, following the branch order of the C++ loop — comment, string, number,
identifier/keyword, operator, symbol, unknown.  (On empty input — never
reached from `tokenize` — it yields the EndOfFile token.) -/
def scanToken : List Char → ℕ → ℕ → Token × LexState
  | [], l, c => (⟨.EndOfFile, "", l, c⟩, ⟨[], l, c⟩)
  | ch :: rest, l, c =>
    if ch = '/' ∧ rest.head? = some '/' then
      let (lex, r, l2, c2) := consumeWhile (fun x => x ≠ '\n') rest.tail l (c + 2)
      (⟨.Comment, String.mk lex, l, c⟩, ⟨r, l2, c2⟩)
    else if ch = '"' then
      let (closed, lex, r, l2, c2) := scanStringAux rest l (c + 1)
      (⟨if closed then .String else .Unknown, String.mk lex, l, c⟩, ⟨r, l2, c2⟩)
    else if ch.isDigit then
      let (lex, r, l2, c2) := consumeWhile Char.isDigit (ch :: rest) l c
      (⟨.Number, String.mk lex, l, c⟩, ⟨r, l2, c2⟩)
    else if ch.isAlpha ∨ ch = '_' ∨ ch = '#' then
      let (lex, r, l2, c2) := consumeWhile isIdentChar (ch :: rest) l c
      (⟨if kKeywords.contains (String.mk lex) then .Keyword else .Identifier,
        String.mk lex, l, c⟩, ⟨r, l2, c2⟩)
    else
      match matchOperatorAux kOperators (ch :: rest) with
      | some (op, r) => (⟨.Operator, String.mk op, l, c⟩, ⟨r, l, c + op.length⟩)
      | none =>
        if kSymbolChars.contains ch then
          (⟨.Symbol, String.mk [ch], l, c⟩, ⟨rest, l, c + 1⟩)
        else
          (⟨.Unknown, String.mk [ch], l, c⟩, ⟨rest, l, c + 1⟩)

/-- The main loop of `Lexer::tokenize`.  The fuel argument only bounds the
number of emitted tokens; `tokenizeLoop_drains` below shows that
`length + 1` fuel always drains the input completely, so the fuelled loop is
the C++ `while` loop (which always terminates because every dispatch consumes
at least one character). -/
def tokenizeLoop : ℕ → LexState → List Token × LexState
  | 0, st => ([], st)
  | fuel + 1, st =>
    match st.src with
    | [] => ([], st)
    | _ :: _ =>
      let st1 := skipWs st
      match st1.src with
      | [] => ([], st1)
      | ch :: rest =>
        let (t, st2) := scanToken (ch :: rest) st1.line st1.col
        let (ts, stf) := tokenizeLoop fuel st2
        (t :: ts, stf)

/-- `Lexer::tokenize`: run the loop, then append the single EndOfFile
token. -/
def tokenize (s : String) : List Token :=
  let cs := s.toList
  let (ts, stf) := tokenizeLoop (cs.length + 1) ⟨cs, 1, 1⟩
  ts ++ [⟨.EndOfFile, "", stf.line, stf.col⟩]

/-- A character the dispatch of `Lexer::tokenize` recognises in none of its
branches: not whitespace, not a quote, digit, identifier character, operator
start or symbol. -/
def unrecognizedChar (ch : Char) : Bool :=
  !isSpaceChar ch && ch ≠ '"' && !ch.isDigit && !ch.isAlpha &&
  ch ≠ '_' && ch ≠ '#' &&
  ch ≠ '=' && ch ≠ '+' && ch ≠ '-' && ch ≠ '*' && ch ≠ '/' && ch ≠ '%' &&
  !kSymbolChars.contains ch

/-- The statement variants of `perser/ast.h` (`LetStmt`, `SayStmt`,
`RunOperationStmt`, `IfStmt`, `WhileStmt`, `OpenFileStmt`, `ReadFileStmt`,
`WriteFileStmt`, `NowStmt`, `DoStmt`, `UntilStmt`, `AssignmentStmt`,
`IncrementStmt`, `ExecuteBlockStmt`), with the same fields. -/
inductive Stmt
  | letS (name : String) (value : String)
  | say (message : String)
  | runOperation (operationId : ℤ)
  | ifS (condition : String) (thenBody elseBody : List Stmt)
  | whileS (condition : String) (body : List Stmt)
  | openFile (filename : String)
  | readFile (filename : String)
  | writeFile (content filename location : String)
  | nowS (body : List Stmt)
  | doS (body : List Stmt)
  | untilS (condition : String) (body : List Stmt)
  | assignment (varName : String) (value : String)
  | increment (varName : String) (isIncrement : Bool)
  | executeBlockS (blockId : ℤ) (outputs : List String)

/-- The section variants of `perser/ast.h` (`DataBlock`, `OperationBlock`,
`FunctionBlock`, `SystemCallBlock`, plus an `ExecuteBlockStmt` appearing at
section position, as the parser places it). -/
inductive BlockSection
  | dataBlock (name : String) (id : ℤ) (statements : List Stmt)
  | operationBlock (name : String) (id : ℤ) (body : List Stmt)
  | functionBlock (name : String) (id : ℤ) (body : List Stmt)
  | systemCallBlock (body : List Stmt)
  | executeBlockDirective (blockId : ℤ) (outputs : List String)

/-- The root `ProgramBlock` of `perser/ast.h`. -/
structure ProgramBlock where
  blockId : ℤ
  sections : List BlockSection

/-- The `ExecutionContext` of `engine/block_engine.h` (symbol table and value
stack), extended with the accumulated `std::cout` lines so the engine's
printing is observable. -/
structure ExecutionContext where
  symbolTable : SymbolTable
  stack : List Value
  output : List String
deriving Repr

/-- A fresh execution context, as built at the top of
`BlockEngine::executeProgram`. -/
def initialContext : ExecutionContext :=
  ⟨SymbolTable.new, [], []⟩

/-- Append one `std::cout` line. -/
def emit (ctx : ExecutionContext) (line : String) : ExecutionContext :=
  { ctx with output := ctx.output ++ [line] }

/-- The literal conversion of `executeLetStatement`: `std::stod` if it
parses, else the raw string. -/
def letValue (raw : String) : Value :=
  match strToFloat raw with
  | some q => .float q
  | none => .str raw

mutual

/-- `BlockEngine::executeStatement`: dispatch over the statement variants.
The C++ dispatch is a chain of `dynamic_cast` tests covering `LetStmt`,
`SayStmt`, `RunOperationStmt`, `IfStmt`, `WhileStmt`, `OpenFileStmt`,
`ReadFileStmt`, `WriteFileStmt`, `NowStmt`, `DoStmt` and `UntilStmt`; an
`AssignmentStmt`, `IncrementStmt` or `ExecuteBlockStmt` matches none of the
tests, so the function returns with no action, and those cases map the
context to itself here.  `executeWhileStatement` executes the body once
without consulting the condition; `executeRunOperationStatement` and
`executeUntilStatement` only print. -/
def executeStatement (ctx : ExecutionContext) : Stmt → ExecutionContext
  | .letS name value =>
    { ctx with symbolTable := ctx.symbolTable.defineVariable name (letValue value) }
  | .say message =>
    match ctx.symbolTable.lookup message with
    | some sym => emit ctx (sym.value.toString)
    | none => emit ctx message
  | .runOperation operationId =>
    emit ctx ("Running operation " ++ Int.repr operationId)
  | .ifS condition thenBody elseBody =>
    let conditionResult :=
      match ctx.symbolTable.lookup condition with
      | some sym => sym.value.toBool
      | none => !condition.isEmpty
    if conditionResult then executeStatements ctx thenBody
    else executeStatements ctx elseBody
  | .whileS _ body => executeStatements ctx body
  | .openFile filename => emit ctx ("Opening file: " ++ filename)
  | .readFile filename => emit ctx ("Reading file: " ++ filename)
  | .writeFile content filename location =>
    emit ctx ("Writing to file: " ++ filename ++ " content: " ++ content ++
      " at location: " ++ location)
  | .nowS body => executeStatements ctx body
  | .doS body => executeStatements ctx body
  | .untilS condition _ =>
    match ctx.symbolTable.lookup condition with
    | some sym =>
      emit ctx ("Until condition evaluated: " ++ (if sym.value.toBool then "1" else "0"))
    | none => emit ctx ("Until condition: " ++ condition)
  | .assignment _ _ => ctx
  | .increment _ _ => ctx
  | .executeBlockS _ _ => ctx

/-- Statement sequences, executed front to back (the `for` loops of the
block-execution helpers). -/
def executeStatements (ctx : ExecutionContext) : List Stmt → ExecutionContext
  | [] => ctx
  | s :: rest => executeStatements (executeStatement ctx s) rest

end

/-- Section dispatch of `BlockEngine::executeProgram`: every block kind
executes its statements directly in the shared context (the engine never
enters a child scope); the execute-block directive only logs. -/
def executeSection (ctx : ExecutionContext) : BlockSection → ExecutionContext
  | .dataBlock _ _ statements => executeStatements ctx statements
  | .operationBlock _ _ body => executeStatements ctx body
  | .functionBlock _ _ body => executeStatements ctx body
  | .systemCallBlock body => executeStatements ctx body
  | .executeBlockDirective blockId outputs =>
    let ctx1 := emit ctx ("Executing block " ++ Int.repr blockId)
    outputs.foldl (fun c o => emit c ("Output: " ++ o)) ctx1

/-- `BlockEngine::executeProgram`: fresh context, sections top to bottom.
The C++ function returns a default `Value`; the observable result is the
final context. -/
def executeProgram (p : ProgramBlock) : ExecutionContext :=
  p.sections.foldl executeSection initialContext

/-- The statements of the claim's program
`Let x = 10; Let y = 5; While => y => y--;`, exactly as
`Parser::parseStatement` builds them: the While condition is the raw token
span `y` and its body is the single decrement `y--`. -/
def whileDemoStmts : List Stmt :=
  [.letS "x" "10", .letS "y" "5", .whileS "y" [.increment "y" false]]

/-- The claim's program packaged in a data section. -/
def whileDemoProgram : ProgramBlock :=
  ⟨1, [.dataBlock "demo" 1 whileDemoStmts]⟩

/-- A program whose only statement is `Run operation[7]`. -/
def runDemoProgram : ProgramBlock :=
  ⟨1, [.systemCallBlock [.runOperation 7]]⟩

/-- C4: for every pair of Values `a` and `b`, `a + b` is the string
concatenation of `a.toString()` and `b.toString()` whenever at least one of
`a`, `b` has the String tag, and otherwise is the Float value
`a.toFloat() + b.toFloat()`; concretely `Value("abc") + Value(5.0)` is the
string `"abc5.000000"` and `Value(2.0) + Value(3.0)` is the float `5.0`. -/
theorem add_string_overload :
    (∀ a b : Value, a.getType = ValueType.STRING ∨ b.getType = ValueType.STRING →
      Value.add a b = Value.str (a.toString ++ b.toString)) ∧
    (∀ a b : Value, a.getType ≠ ValueType.STRING → b.getType ≠ ValueType.STRING →
      Value.add a b = Value.float (a.toFloat + b.toFloat)) ∧
    Value.add (Value.str "abc") (Value.float 5) = Value.str "abc5.000000" ∧
    Value.add (Value.float 2) (Value.float 3) = Value.float 5 := by
  refine ⟨?_, ?_, ?_, ?_⟩
  · intro a b h
    simp only [Value.add]
    rw [if_pos h]
  · intro a b ha hb
    simp only [Value.add]
    rw [if_neg (not_or.mpr ⟨ha, hb⟩)]
  · simp [Value.add, Value.getType, Value.toString, fmtFixed6, ratFloorNonneg]
    norm_num
    decide
  · norm_num [Value.add, Value.getType, Value.toFloat]
    exact fun h => nomatch h

/-- Witness for `add_string_overload` at concrete inputs. -/
theorem add_string_overload_witness :
    Value.add (Value.str "3") (Value.float 2) =
      Value.str ((Value.str "3").toString ++ (Value.float 2).toString) ∧
    Value.add (Value.bool true) (Value.bool false) =
      Value.float ((Value.bool true).toFloat + (Value.bool false).toFloat) :=
  ⟨add_string_overload.1 (Value.str "3") (Value.float 2) (Or.inl rfl),
   add_string_overload.2.1 (Value.bool true) (Value.bool false)
     (by decide) (by decide)⟩

/-- C5: dividing `a` by `b` fails with the division-by-zero error whenever the
magnitude of `b.toFloat()` is below `1e-10` (no infinity is ever produced),
and otherwise returns the Float value `a.toFloat() / b.toFloat()`; in
particular `Divide(Value(4.0), Value(0.0))` fails with the division-by-zero
error. -/
theorem divide_epsilon_guard :
    (∀ a b : Value, |b.toFloat| < epsilon →
      Value.div a b = Except.error "Division by zero") ∧
    (∀ a b : Value, ¬ |b.toFloat| < epsilon →
      Value.div a b = Except.ok (Value.float (a.toFloat / b.toFloat))) ∧
    Divide [Value.float 4, Value.float 0] = Except.error "Division by zero" := by
  refine ⟨?_, ?_, ?_⟩
  · intro a b h
    simp only [Value.div]
    rw [if_pos h]
  · intro a b h
    simp only [Value.div]
    rw [if_neg h]
  · norm_num [Divide, Value.div, Value.toFloat, epsilon, abs_of_nonneg]

/-- Witness for `divide_epsilon_guard` at concrete inputs. -/
theorem divide_epsilon_guard_witness :
    Value.div (Value.float 4) (Value.float 0) = Except.error "Division by zero" ∧
    Value.div (Value.float 4) (Value.float 2) =
      Except.ok (Value.float ((Value.float 4).toFloat / (Value.float 2).toFloat)) :=
  ⟨divide_epsilon_guard.1 (Value.float 4) (Value.float 0)
     (by norm_num [Value.toFloat, epsilon]),
   divide_epsilon_guard.2.1 (Value.float 4) (Value.float 2)
     (by norm_num [Value.toFloat, epsilon, abs_of_nonneg])⟩

/-- C6: for every Float-tagged Value `x`, `x.toBool()` is true exactly when
`|x| > 1e-10`; in particular `Value(0.0000000001).toBool() == false` and
`Value(0.001).toBool() == true`. -/
theorem float_toBool_epsilon :
    (∀ q : ℚ, (Value.float q).toBool = decide (|q| > 1 / 10 ^ 10)) ∧
    (Value.float (1 / 10 ^ 10)).toBool = false ∧
    (Value.float (1 / 1000)).toBool = true := by
  refine ⟨fun q => rfl, ?_, ?_⟩
  · norm_num [Value.toBool, epsilon, abs_of_nonneg]
  · norm_num [Value.toBool, epsilon, abs_of_nonneg]

/-- C10: `Value::toFloat` is total over every tag: a Handle converts to its
numeric id, a Bool to `1.0`/`0.0`, and a String that fails numeric parse to
`0.0`. -/
theorem toFloat_total_on_all_tags :
    (∀ (kind : String) (ptrNonNull : Bool) (id : ℤ),
      (Value.handle kind ptrNonNull id).toFloat = (id : ℚ)) ∧
    (Value.bool true).toFloat = 1 ∧
    (Value.bool false).toFloat = 0 ∧
    (∀ s : String, strToFloat s = none → (Value.str s).toFloat = 0) := by
  refine ⟨fun kind p id => rfl, rfl, rfl, ?_⟩
  intro s h
  simp [Value.toFloat, h]

/-- Witness for `toFloat_total_on_all_tags` at concrete inputs. -/
theorem toFloat_total_on_all_tags_witness :
    strToFloat "abc" = none ∧ (Value.str "abc").toFloat = 0 :=
  ⟨by decide, toFloat_total_on_all_tags.2.2.2 "abc" (by decide)⟩

/-- When `lookup` resolves `name` to an immutable variable, the update walk
refuses (negative result of `SymbolTable::updateVariable`). -/
theorem updateScopes_immutable_none (name : String) (w : Value) (n : String)
    (v : Value) :
    ∀ (scopes : List Scope),
      tableLookupAux scopes name = some (.variableSym n v false) →
      updateScopes scopes name w = none := by
  intro scopes
  induction scopes with
  | nil => intro h; simp [tableLookupAux] at h
  | cons sc rest ih =>
    intro h
    simp only [tableLookupAux] at h
    simp only [updateScopes]
    cases hm : mapLookup sc.symbols name with
    | some sym =>
      rw [hm] at h
      cases h
      simp
    | none =>
      rw [hm] at h
      simp [ih h]

/-- When `lookup` resolves `name` to a mutable variable, the update walk
succeeds. -/
theorem updateScopes_mutable_some (name : String) (w : Value) (n : String)
    (v : Value) :
    ∀ (scopes : List Scope),
      tableLookupAux scopes name = some (.variableSym n v true) →
      ∃ r, updateScopes scopes name w = some r := by
  intro scopes
  induction scopes with
  | nil => intro h; simp [tableLookupAux] at h
  | cons sc rest ih =>
    intro h
    simp only [tableLookupAux] at h
    simp only [updateScopes]
    cases hm : mapLookup sc.symbols name with
    | some sym =>
      rw [hm] at h
      cases h
      simp
    | none =>
      rw [hm] at h
      obtain ⟨r, hr⟩ := ih h
      exact ⟨sc :: r, by simp [hr]⟩

/-- When no scope of the chain binds `name` to a variable, the update walk
refuses. -/
theorem updateScopes_no_variable_none (name : String) (w : Value) :
    ∀ (scopes : List Scope),
      (∀ sc ∈ scopes, scopeBindsVariable sc name = false) →
      updateScopes scopes name w = none := by
  intro scopes
  induction scopes with
  | nil => intro _; rfl
  | cons sc rest ih =>
    intro h
    have hsc := h sc (List.mem_cons_self sc rest)
    simp only [updateScopes]
    cases hm : mapLookup sc.symbols name with
    | some sym =>
      rw [scopeBindsVariable, hm] at hsc
      cases sym <;> simp_all [Symbol.isVariable]
    | none =>
      have : updateScopes rest name w = none :=
        ih (fun s hs => h s (List.mem_cons_of_mem sc hs))
      simp [this]

/-- C3: a call `updateVariable(name, value)` on a name resolving to a
variable whose mutability flag is false reports the mutation error — the
`false` result, distinguishable from the `true` returned by a successful
update — and leaves the table (hence the variable's bound value) unchanged. -/
theorem updateVariable_immutable_mutation_error :
    ∀ (t : SymbolTable) (name : String) (w : Value),
      (∀ n v, t.lookup name = some (.variableSym n v false) →
        t.updateVariable name w = (false, t)) ∧
      (∀ n v, t.lookup name = some (.variableSym n v true) →
        (t.updateVariable name w).1 = true) := by
  intro t name w
  constructor
  · intro n v h
    have hnone := updateScopes_immutable_none name w n v t.scopes h
    simp [SymbolTable.updateVariable, hnone]
  · intro n v h
    obtain ⟨r, hr⟩ := updateScopes_mutable_some name w n v t.scopes h
    simp [SymbolTable.updateVariable, hr]

/-- Witness for `updateVariable_immutable_mutation_error` at concrete
tables. -/
theorem updateVariable_immutable_mutation_error_witness :
    immutableDemoTable.updateVariable "k" (.float 2) = (false, immutableDemoTable) ∧
    (mutableDemoTable.updateVariable "k" (.float 2)).1 = true :=
  ⟨(updateVariable_immutable_mutation_error immutableDemoTable "k" (.float 2)).1
      "k" (.float 1) (by decide),
   (updateVariable_immutable_mutation_error mutableDemoTable "k" (.float 2)).2
      "k" (.float 1) (by decide)⟩

/-- C7: `updateVariable(name, value)` on a name not bound to a variable in
any scope of the chain returns failure, creates no new binding, and leaves
every scope unchanged (the returned table is the input table itself). -/
theorem updateVariable_absent_name_noop :
    ∀ (t : SymbolTable) (name : String) (v : Value),
      (∀ sc ∈ t.scopes, scopeBindsVariable sc name = false) →
      t.updateVariable name v = (false, t) := by
  intro t name v h
  have hnone := updateScopes_no_variable_none name v t.scopes h
  simp [SymbolTable.updateVariable, hnone]

/-- Witness for `updateVariable_absent_name_noop`: both a completely unbound
name and a name bound only to an operation symbol. -/
theorem updateVariable_absent_name_noop_witness :
    noVariableDemoTable.updateVariable "missing" (.float 2) =
      (false, noVariableDemoTable) ∧
    noVariableDemoTable.updateVariable "f" (.float 2) =
      (false, noVariableDemoTable) :=
  ⟨updateVariable_absent_name_noop noVariableDemoTable "missing" (.float 2)
      (by decide),
   updateVariable_absent_name_noop noVariableDemoTable "f" (.float 2)
      (by decide)⟩

/-- Operator matching fails on any first character that starts no operator of
the table. -/
theorem matchOperator_none_of_not_start (ch : Char) (rest : List Char)
    (h1 : ch ≠ '=') (h2 : ch ≠ '+') (h3 : ch ≠ '-') (h4 : ch ≠ '*')
    (h5 : ch ≠ '/') (h6 : ch ≠ '%') :
    matchOperatorAux kOperators (ch :: rest) = none := by
  simp [kOperators, matchOperatorAux, List.isPrefixOf,
    Ne.symm h1, Ne.symm h2, Ne.symm h3, Ne.symm h4, Ne.symm h5, Ne.symm h6]

/-- A string body hitting a newline before any closing quote is reported
unterminated, with exactly the partial text as lexeme; the newline is
consumed. -/
theorem scanStringAux_unterminated_newline (rest : List Char) :
    ∀ (body : List Char), body.all (fun x => x ≠ '"' && x ≠ '\n') = true →
      ∀ (l c : ℕ),
        scanStringAux (body ++ '\n' :: rest) l c = (false, body, rest, l + 1, 1) := by
  intro body
  induction body with
  | nil =>
    intro _ l c
    simp [scanStringAux, advancePos]
  | cons x xs ih =>
    intro h l c
    simp only [List.all_cons, Bool.and_eq_true, decide_eq_true_eq] at h
    obtain ⟨⟨hq, hn⟩, hrest⟩ := h
    simp only [List.cons_append, scanStringAux, advancePos]
    rw [if_neg hq, if_neg hn]
    simp [hn, ih (by simpa using hrest) l (c + 1)]

/-- A string body hitting end of input before any closing quote is reported
unterminated, with exactly the partial text as lexeme. -/
theorem scanStringAux_unterminated_eof :
    ∀ (body : List Char), body.all (fun x => x ≠ '"' && x ≠ '\n') = true →
      ∀ (l c : ℕ), scanStringAux body l c = (false, body, [], l, c + body.length) := by
  intro body
  induction body with
  | nil => intro _ l c; simp [scanStringAux]
  | cons x xs ih =>
    intro h l c
    simp only [List.all_cons, Bool.and_eq_true, decide_eq_true_eq] at h
    obtain ⟨⟨hq, hn⟩, hrest⟩ := h
    simp only [scanStringAux, advancePos]
    rw [if_neg hq, if_neg hn]
    simp [hn, ih (by simpa using hrest) l (c + 1)]
    omega

/-- A character recognized by no branch falls through to the Unknown case,
emitting a one-character Unknown token. -/
theorem scanToken_unknown (ch : Char) (rest : List Char) (l c : ℕ)
    (h : unrecognizedChar ch = true) :
    scanToken (ch :: rest) l c =
      (⟨.Unknown, String.mk [ch], l, c⟩, ⟨rest, l, c + 1⟩) := by
  simp only [unrecognizedChar, Bool.and_eq_true, Bool.not_eq_true',
    decide_eq_true_eq] at h
  obtain ⟨⟨⟨⟨⟨⟨⟨⟨⟨⟨⟨⟨hsp, hq⟩, hd⟩, ha⟩, hu⟩, hh⟩, he⟩, hp⟩, hm⟩, hst⟩, hsl⟩,
    hpc⟩, hsym⟩ := h
  simp only [scanToken]
  rw [if_neg (by simp [hsl])]
  rw [if_neg hq]
  rw [if_neg (by simp [hd])]
  rw [if_neg (by simp [ha, hu, hh])]
  rw [matchOperator_none_of_not_start ch rest he hp hm hst hsl hpc]
  rw [if_neg (by simpa using hsym)]

/-- The ten single-character symbols that are not also operator characters
dispatch to the Symbol branch. -/
theorem scanToken_plain_symbol (ch : Char) (rest : List Char) (l c : ℕ)
    (h : ch ∈ ['(', ')', '\x7b', '\x7d', '[', ']', ';', ',', '@', '.']) :
    scanToken (ch :: rest) l c =
      (⟨.Symbol, String.mk [ch], l, c⟩, ⟨rest, l, c + 1⟩) := by
  fin_cases h <;> rfl

/-- Skipping whitespace never lengthens the input. -/
theorem skipWsAux_length_le : ∀ (cs : List Char) (l c : ℕ),
    (skipWsAux cs l c).1.length ≤ cs.length := by
  intro cs
  induction cs with
  | nil => intro l c; simp [skipWsAux]
  | cons x xs ih =>
    intro l c
    simp only [skipWsAux]
    split
    · rcases advancePos x l c with ⟨l1, c1⟩
      exact le_trans (ih l1 c1) (by simp)
    · simp

/-- Greedy class scanning never lengthens the input. -/
theorem consumeWhile_rest_length_le (p : Char → Bool) :
    ∀ (cs : List Char) (l c : ℕ),
      (consumeWhile p cs l c).2.1.length ≤ cs.length := by
  intro cs
  induction cs with
  | nil => intro l c; simp [consumeWhile]
  | cons x xs ih =>
    intro l c
    simp only [consumeWhile]
    split
    · rcases advancePos x l c with ⟨l1, c1⟩
      have := ih l1 c1
      rcases hcw : consumeWhile p xs l1 c1 with ⟨lex, r, l2, c2⟩
      rw [hcw] at this
      simp_all
      omega
    · simp

/-- String-body scanning never lengthens the input. -/
theorem scanStringAux_rest_length_le : ∀ (cs : List Char) (l c : ℕ),
    (scanStringAux cs l c).2.2.1.length ≤ cs.length := by
  intro cs
  induction cs with
  | nil => intro l c; simp [scanStringAux]
  | cons x xs ih =>
    intro l c
    simp only [scanStringAux]
    rcases advancePos x l c with ⟨l1, c1⟩
    split
    · simp
    · split
      · simp
      · have := ih l1 c1
        rcases hsc : scanStringAux xs l1 c1 with ⟨cl, lex, r, l2, c2⟩
        rw [hsc] at this
        simp_all
        omega

/-- A successful operator match returns an operator of the table, a prefix of
the input, and the input after it. -/
theorem matchOperatorAux_some : ∀ (ops : List (List Char)) (cs : List Char)
    (op r : List Char), matchOperatorAux ops cs = some (op, r) →
    op ∈ ops ∧ op.isPrefixOf cs = true ∧ r = cs.drop op.length := by
  intro ops
  induction ops with
  | nil => intro cs op r h; simp [matchOperatorAux] at h
  | cons o os ih =>
    intro cs op r h
    simp only [matchOperatorAux] at h
    split at h
    · rcases h with ⟨rfl, rfl⟩
      constructor
      · exact List.mem_cons_self o os
      · constructor
        · assumption
        · rfl
    · have := ih cs op r h
      exact ⟨List.mem_cons_of_mem o this.1, this.2⟩

/-- When class scanning starts on a matching character, the rest of the
output is bounded by the tail. -/
theorem consumeWhile_cons_true_rest_le (p : Char → Bool) (ch : Char)
    (rest : List Char) (l c : ℕ) (hp : p ch = true) :
    (consumeWhile p (ch :: rest) l c).2.1.length ≤ rest.length := by
  simp only [consumeWhile, hp, if_true]
  rcases advancePos ch l c with ⟨l1, c1⟩
  have := consumeWhile_rest_length_le p rest l1 c1
  rcases hcw : consumeWhile p rest l1 c1 with ⟨lex, r, l2, c2⟩
  rw [hcw] at this
  simpa using this

/-- Every operator of the table is non-empty. -/
theorem kOperators_nonempty : ∀ o ∈ kOperators, 1 ≤ o.length := by decide

/-- Every dispatch of the tokenize loop consumes at least one character, so
the C++ `while` loop always terminates. -/
theorem scanToken_src_length_lt (ch : Char) (rest : List Char) (l c : ℕ) :
    ((scanToken (ch :: rest) l c).2).src.length < (ch :: rest).length := by
  simp only [scanToken]
  split
  · rcases hcw : consumeWhile (fun x => x ≠ '\n') rest.tail l (c + 2) with
      ⟨lex, r, l2, c2⟩
    have := consumeWhile_rest_length_le (fun x => x ≠ '\n') rest.tail l (c + 2)
    rw [hcw] at this
    simp only at this ⊢
    have h2 : rest.tail.length ≤ rest.length := by
      cases rest <;> simp
    simp
    omega
  · split
    · rcases hsc : scanStringAux rest l (c + 1) with ⟨cl, lex, r, l2, c2⟩
      have := scanStringAux_rest_length_le rest l (c + 1)
      rw [hsc] at this
      simp only at this ⊢
      simp
      omega
    · split
      · rcases hcw : consumeWhile Char.isDigit (ch :: rest) l c with
          ⟨lex, r, l2, c2⟩
        have := consumeWhile_cons_true_rest_le Char.isDigit ch rest l c
          (by assumption)
        rw [hcw] at this
        simp only at this ⊢
        simp
        omega
      · split
        · rename_i ha
          have hid : isIdentChar ch = true := by
            simp only [isIdentChar]
            rcases ha with h | h | h
            · simp [Char.isAlphanum, h]
            · simp [h]
            · simp [h]
          rcases hcw : consumeWhile isIdentChar (ch :: rest) l c with
            ⟨lex, r, l2, c2⟩
          have := consumeWhile_cons_true_rest_le isIdentChar ch rest l c hid
          rw [hcw] at this
          simp only at this ⊢
          simp
          omega
        · rcases hmo : matchOperatorAux kOperators (ch :: rest) with _ | ⟨op, r⟩
          · simp only [hmo]
            split <;> simp
          · simp only [hmo]
            have hfacts := matchOperatorAux_some kOperators (ch :: rest) op r hmo
            have hop1 : 1 ≤ op.length := kOperators_nonempty op hfacts.1
            have hpre : op.length ≤ (ch :: rest).length :=
              (List.isPrefixOf_iff_prefix.mp hfacts.2.1).length_le
            simp only [hfacts.2.2]
            simp [List.length_drop]
            omega

/-- With fuel at least the input length the tokenize loop drains the whole
input: the fuelled loop is an honest rendering of the always-terminating C++
`while` loop. -/
theorem tokenizeLoop_drains : ∀ (fuel : ℕ) (st : LexState),
    st.src.length ≤ fuel → ((tokenizeLoop fuel st).2).src = [] := by
  intro fuel
  induction fuel with
  | zero =>
    intro st h
    have : st.src = [] := List.eq_nil_of_length_eq_zero (Nat.le_zero.mp h)
    simp [tokenizeLoop, this]
  | succ n ih =>
    intro st h
    rcases hsrc : st.src with _ | ⟨x, xs⟩
    · simp [tokenizeLoop, hsrc]
    · have hskip : (skipWs st).src.length ≤ st.src.length := by
        simp only [skipWs]
        rcases hws : skipWsAux st.src st.line st.col with ⟨r, l1, c1⟩
        have := skipWsAux_length_le st.src st.line st.col
        rw [hws] at this
        simpa using this
      rcases hsrc1 : (skipWs st).src with _ | ⟨ch, rest⟩
      · simp [tokenizeLoop, hsrc, hsrc1]
      · have hlt :
            ((scanToken (ch :: rest) (skipWs st).line (skipWs st).col).2).src.length ≤ n := by
          have h1 := scanToken_src_length_lt ch rest (skipWs st).line (skipWs st).col
          have h4 : (ch :: rest).length = (skipWs st).src.length := by rw [hsrc1]
          omega
        rcases hscan : scanToken (ch :: rest) (skipWs st).line (skipWs st).col with
          ⟨t, st2⟩
        have h2 : st2.src.length ≤ n := by rw [hscan] at hlt; exact hlt
        have h3 := ih st2 h2
        simp only [tokenizeLoop, hsrc, hsrc1, hscan]
        rcases htl : tokenizeLoop n st2 with ⟨ts, stf⟩
        rw [htl] at h3
        simpa using h3

/-- C8: `Lexer::tokenize` is total and never throws — it drains every input
(terminating with the single EndOfFile token last), an unrecognized character
becomes a one-character Unknown token, and a string literal left unterminated
by a newline or by end of input yields an Unknown token containing the
partial text rather than a failure. -/
theorem tokenize_total_never_throws :
    (∀ s : String,
      ((tokenizeLoop (s.toList.length + 1) ⟨s.toList, 1, 1⟩).2).src = [] ∧
      ∃ l c, (tokenize s).getLast? = some ⟨.EndOfFile, "", l, c⟩) ∧
    (∀ (ch : Char) (rest : List Char) (l c : ℕ), unrecognizedChar ch = true →
      scanToken (ch :: rest) l c =
        (⟨.Unknown, String.mk [ch], l, c⟩, ⟨rest, l, c + 1⟩)) ∧
    (∀ (body rest : List Char) (l c : ℕ),
      body.all (fun x => x ≠ '"' && x ≠ '\n') = true →
      (scanToken ('"' :: (body ++ '\n' :: rest)) l c).1 =
        ⟨.Unknown, String.mk body, l, c⟩ ∧
      (scanToken ('"' :: body) l c).1 = ⟨.Unknown, String.mk body, l, c⟩) := by
  refine ⟨?_, scanToken_unknown, ?_⟩
  · intro s
    constructor
    · exact tokenizeLoop_drains (s.toList.length + 1) ⟨s.toList, 1, 1⟩ (by simp)
    · rcases htl : tokenizeLoop (s.toList.length + 1) ⟨s.toList, 1, 1⟩ with ⟨ts, stf⟩
      refine ⟨stf.line, stf.col, ?_⟩
      simp only [tokenize]
      rw [htl]
      simp [List.getLast?_concat]
  · intro body rest l c hall
    constructor
    · simp only [scanToken]
      rw [if_neg (by simp), if_pos trivial,
        scanStringAux_unterminated_newline rest body hall l (c + 1)]
      rfl
    · simp only [scanToken]
      rw [if_neg (by simp), if_pos trivial,
        scanStringAux_unterminated_eof body hall l (c + 1)]
      rfl

/-- Witness for `tokenize_total_never_throws` at concrete inputs. -/
theorem tokenize_total_never_throws_witness :
    unrecognizedChar '$' = true ∧
    scanToken ['$'] 1 1 = (⟨.Unknown, String.mk ['$'], 1, 1⟩, ⟨[], 1, 2⟩) ∧
    (['a', 'b'].all (fun x => x ≠ '"' && x ≠ '\n') = true) ∧
    (scanToken ('"' :: ['a', 'b']) 1 1).1 = ⟨.Unknown, String.mk ['a', 'b'], 1, 1⟩ :=
  ⟨by decide,
   tokenize_total_never_throws.2.1 '$' [] 1 1 (by decide),
   by decide,
   (tokenize_total_never_throws.2.2 ['a', 'b'] [] 1 1 (by decide)).2⟩

/-- C9 counterexample: the characters `*` and `/` are matched by the operator
table before the symbol set is consulted, so a lone `*` (or `/` not starting a
comment) is emitted as an Operator token, not a Symbol token as the claim
states. -/
theorem star_slash_symbol_counterexample :
    (tokenize (String.mk ['*'])).map tokenKindLex =
      [(TokenType.Operator, String.mk ['*']), (TokenType.EndOfFile, String.mk [])] ∧
    (tokenize (String.mk ['/'])).map tokenKindLex =
      [(TokenType.Operator, String.mk ['/']), (TokenType.EndOfFile, String.mk [])] ∧
    TokenType.Operator ≠ TokenType.Symbol := by decide

/-- C9 as amended: of the listed characters, the ten that start no operator
(`( ) { } [ ] ; , @ .`) are each emitted individually as a one-character
Symbol token; `*`, and `/` when not beginning a `//` comment, are instead
emitted individually as one-character Operator tokens because the operator
table is consulted first. -/
theorem plain_symbols_emitted_individually :
    (∀ (ch : Char) (rest : List Char) (l c : ℕ),
      ch ∈ ['(', ')', '\x7b', '\x7d', '[', ']', ';', ',', '@', '.'] →
      scanToken (ch :: rest) l c =
        (⟨.Symbol, String.mk [ch], l, c⟩, ⟨rest, l, c + 1⟩)) ∧
    (∀ (rest : List Char) (l c : ℕ),
      scanToken ('*' :: rest) l c =
        (⟨.Operator, String.mk ['*'], l, c⟩, ⟨rest, l, c + 1⟩)) ∧
    (∀ (rest : List Char) (l c : ℕ), rest.head? ≠ some '/' →
      scanToken ('/' :: rest) l c =
        (⟨.Operator, String.mk ['/'], l, c⟩, ⟨rest, l, c + 1⟩)) := by
  refine ⟨scanToken_plain_symbol, ?_, ?_⟩
  · intro rest l c
    simp [scanToken, matchOperatorAux, kOperators]
  · intro rest l c h
    simp [scanToken, matchOperatorAux, kOperators, h]

/-- Witness for `plain_symbols_emitted_individually` at concrete inputs. -/
theorem plain_symbols_emitted_individually_witness :
    scanToken ['('] 1 1 = (⟨.Symbol, String.mk ['('], 1, 1⟩, ⟨[], 1, 2⟩) ∧
    scanToken ['/', 'a'] 1 1 = (⟨.Operator, String.mk ['/'], 1, 1⟩, ⟨['a'], 1, 2⟩) :=
  ⟨plain_symbols_emitted_individually.1 '(' [] 1 1 (by decide),
   plain_symbols_emitted_individually.2.2 ['a'] 1 1 (by decide)⟩

/-- Concrete literal parse used by the demonstration program. -/
theorem strToFloat_ten : strToFloat "10" = some 10 := by
  simp [strToFloat, digitsToNat, isSpaceChar]

/-- Concrete literal parse used by the demonstration program. -/
theorem strToFloat_five : strToFloat "5" = some 5 := by
  simp [strToFloat, digitsToNat, isSpaceChar]

/-- C1 (code evaluated at the claim's program): `executeWhileStatement`
executes the While body exactly once, never consulting the condition, and the
decrement body statement is not even dispatched (no `IncrementStmt` case in
`executeStatement`), so `Let x = 10; Let y = 5; While => y => y--;` leaves
`y` bound to `5.0` — not `0.0` after five iterations as the claim states, and
no iteration cap (`LoopLimitExceeded`) exists anywhere in the engine. -/
theorem while_executes_body_once_not_looping :
    (∀ (ctx : ExecutionContext) (condition : String) (body : List Stmt),
      executeStatement ctx (.whileS condition body) = executeStatements ctx body) ∧
    (executeProgram whileDemoProgram).symbolTable.lookup "y" =
      some (.variableSym "y" (.float 5) true) ∧
    (executeProgram whileDemoProgram).symbolTable.lookup "y" ≠
      some (.variableSym "y" (.float 0) true) := by
  have h2 : (executeProgram whileDemoProgram).symbolTable.lookup "y" =
      some (.variableSym "y" (.float 5) true) := by
    simp [executeProgram, whileDemoProgram, whileDemoStmts, executeSection,
      executeStatements, executeStatement, letValue, strToFloat_ten,
      strToFloat_five, SymbolTable.defineVariable, SymbolTable.define,
      SymbolTable.new, initialContext, initialGlobalScope, mapInsert,
      SymbolTable.lookup, tableLookupAux, mapLookup, List.find?, List.filter]
  refine ⟨fun ctx condition body => rfl, h2, ?_⟩
  rw [h2]
  simp

/-- Witness for `while_executes_body_once_not_looping` at a concrete
context. -/
theorem while_executes_body_once_not_looping_witness :
    executeStatement initialContext (Stmt.whileS "y" [Stmt.increment "y" false]) =
      executeStatements initialContext [Stmt.increment "y" false] :=
  while_executes_body_once_not_looping.1 initialContext "y"
    [Stmt.increment "y" false]

/-- C2 (code evaluated at a `Run operation[7]` statement):
`executeRunOperationStatement` only prints `Running operation <id>`; it never
resolves an operation by id and never executes any operation body — the
symbol table after the statement is exactly the table before it. -/
theorem run_operation_only_logs :
    (∀ (ctx : ExecutionContext) (operationId : ℤ),
      executeStatement ctx (.runOperation operationId) =
        { ctx with
          output := ctx.output ++ ["Running operation " ++ Int.repr operationId] }) ∧
    (executeProgram runDemoProgram).output = ["Running operation 7"] ∧
    (executeProgram runDemoProgram).symbolTable = SymbolTable.new :=
  ⟨fun _ _ => rfl, rfl, rfl⟩

end NexLang
